import Mathlib

/-!
# BaseRegistry — shallow embedding and verification

This file embeds the state-transition core of `contracts/BaseRegistry.sol`:
a registry mapping unique string names to owner-controlled records, with
fee-gated registration, owner-gated update/transfer, admin-controlled fee,
pause and withdrawal, and exact balance accounting.

Modelling conventions:
* account addresses are `Nat`, with `0` the zero sentinel (`address(0)`);
* Solidity strings are byte sequences, modelled as `List Nat`; `bytes(s).length`
  is `List.length`;
* `block.timestamp` and `msg.value` are explicit `Nat` arguments (`now`,
  `payment`), the authenticated sender (`msg.sender`) an explicit `caller`;
* each external function returns `Except RegError Registry`: EVM revert
  semantics mean a failed call leaves the state unchanged, so an `.error`
  result carries no state;
* the outcome of an outbound low-level value transfer
  (`msg.sender.call{value: ...}("")` in `register`, `to.call{value: ...}("")`
  in `withdraw`) is an explicit `Bool` argument (`refundOk` / `payoutOk`),
  since it depends on the recipient; a `false` outcome makes the whole call
  revert, exactly as the source's `require(success, ...)` does;
* `balance` models `address(this).balance`: a successful `register` nets
  `+registrationFee` (the attached `payment` arrives and the excess is
  refunded), `withdraw` sends the whole balance, direct deposits via
  `receive()` add their amount;
* outbound value transfers are logged in `transfersOut` (recipient, amount),
  mirroring the actual `call{value: ...}` operations, so that refund and
  withdrawal amounts are observable in the model.

The OpenZeppelin `Ownable`, `Pausable` and `ReentrancyGuard` bases are not
part of this repository's sources; their checks are modelled from the spec:
`onlyOwner` rejects any caller other than the admin (spec §4.5), the
`whenNotPaused` modifier rejects calls while paused (§4.1–4.3, checked before
the function body's requires since it is a modifier), and `pause`/`unpause`
carry the idempotent guards of §4.5 (pausing an already-paused registry is
rejected, unpausing an unpaused one likewise). Reentrancy (§5) is outside a
sequential shallow embedding; `nonReentrant` has no effect on any sequential
execution modelled here.
-/

namespace BaseRegistry

/-- Account identifier (`address`); `0` is the zero sentinel. -/
abbrev Addr := Nat

/-- Solidity string, as its byte sequence. -/
abbrev Str := List Nat

/-- `MAX_NAME_LENGTH` (`BaseRegistry.sol` line 16). -/
def MAX_NAME_LENGTH : Nat := 32

/-- `MAX_DATA_LENGTH` (`BaseRegistry.sol` line 17). -/
def MAX_DATA_LENGTH : Nat := 256

/-- The `Record` struct (`BaseRegistry.sol` lines 22–27). -/
structure Record where
  owner : Addr
  data : Str
  createdAt : Nat
  updatedAt : Nat
deriving Repr, DecidableEq

/-- The default value of `mapping(string => Record)` for an absent key:
all fields zero-valued. -/
def emptyRecord : Record :=
  { owner := 0, data := [], createdAt := 0, updatedAt := 0 }

/-- The registry's whole contract state: the two mappings, the fee, the
pause flag, the admin (`Ownable` owner), the held balance and the log of
outbound value transfers. -/
structure Registry where
  registry : Str → Record
  ownedNames : Addr → List Str
  registrationFee : Nat
  paused : Bool
  admin : Addr
  balance : Nat
  transfersOut : List (Addr × Nat)

/-- Reasons a call can revert, one per `require` / modifier in the source. -/
inductive RegError where
  /-- `whenNotPaused` modifier rejected the call (contract paused). -/
  | enforcedPause
  /-- `whenPaused` guard of `_unpause` rejected the call (not paused). -/
  | expectedPause
  /-- "Name cannot be empty" -/
  | emptyName
  /-- "Name too long" -/
  | nameTooLong
  /-- "Data too long" -/
  | dataTooLong
  /-- "Name already registered" -/
  | alreadyRegistered
  /-- "Insufficient fee" -/
  | insufficientFee
  /-- "Refund failed" -/
  | refundFailed
  /-- "Not the owner" -/
  | notOwner
  /-- "Invalid new owner" -/
  | invalidNewOwner
  /-- "Already the owner" -/
  | alreadyOwner
  /-- `onlyOwner` modifier rejected the call (caller is not the admin). -/
  | notAdmin
  /-- "Invalid address" -/
  | invalidAddress
  /-- "No funds to withdraw" -/
  | noFunds
  /-- "Withdrawal failed" -/
  | withdrawFailed
deriving Repr, DecidableEq

/-- The state written by a successful `register` (lines 94–108): the new
record, the appended ownership entry, the kept fee, and the refund of the
excess payment. -/
def registerEffect (st : Registry) (caller : Addr) (payment now : Nat)
    (name data : Str) : Registry :=
  { st with
    registry := fun n =>
      if n = name then
        { owner := caller, data := data, createdAt := now, updatedAt := now }
      else st.registry n,
    ownedNames := fun a =>
      if a = caller then st.ownedNames a ++ [name] else st.ownedNames a,
    balance := st.balance + st.registrationFee,
    transfersOut :=
      if payment > st.registrationFee then
        st.transfersOut ++ [(caller, payment - st.registrationFee)]
      else st.transfersOut }

/-- `register(name, data)` (`BaseRegistry.sol` lines 82–110).

The `whenNotPaused` modifier runs before the body's `require`s. On success
the record is written, the name appended to `_ownedNames[msg.sender]`, and
— the call being `payable` — the contract keeps exactly the fee: `payment`
arrives with the call and `payment - registrationFee` is refunded when
`payment > registrationFee`; if that refund's low-level call fails
(`refundOk = false`) the `require(success, "Refund failed")` reverts the
whole transaction. -/
def register (st : Registry) (caller : Addr) (payment now : Nat)
    (name data : Str) (refundOk : Bool) : Except RegError Registry :=
  if st.paused then .error .enforcedPause
  else if name.length = 0 then .error .emptyName
  else if name.length > MAX_NAME_LENGTH then .error .nameTooLong
  else if data.length > MAX_DATA_LENGTH then .error .dataTooLong
  else if (st.registry name).owner ≠ 0 then .error .alreadyRegistered
  else if payment < st.registrationFee then .error .insufficientFee
  else if payment > st.registrationFee ∧ refundOk = false then .error .refundFailed
  else .ok (registerEffect st caller payment now name data)

/-- The state written by a successful `update` (lines 129–130): new data
and `updatedAt`, everything else untouched. -/
def updateEffect (st : Registry) (now : Nat) (name data : Str) : Registry :=
  { st with
    registry := fun n =>
      if n = name then
        { st.registry name with data := data, updatedAt := now }
      else st.registry n }

/-- `update(name, data)` (`BaseRegistry.sol` lines 122–133): owner check
before the data-length check; rewrites `data` and `updatedAt` in place. -/
def update (st : Registry) (caller : Addr) (now : Nat)
    (name data : Str) : Except RegError Registry :=
  if st.paused then .error .enforcedPause
  else if (st.registry name).owner ≠ caller then .error .notOwner
  else if data.length > MAX_DATA_LENGTH then .error .dataTooLong
  else .ok (updateEffect st now name data)

/-- The state written by a successful `transfer` (lines 153–158): new owner
and `updatedAt`, the name appended to the new owner's list; the previous
owner's list is left untouched. -/
def transferEffect (st : Registry) (now : Nat) (name : Str) (newOwner : Addr) :
    Registry :=
  { st with
    registry := fun n =>
      if n = name then
        { st.registry name with owner := newOwner, updatedAt := now }
      else st.registry n,
    ownedNames := fun a =>
      if a = newOwner then st.ownedNames a ++ [name] else st.ownedNames a }

/-- `transfer(name, newOwner)` (`BaseRegistry.sol` lines 145–161): owner
check, zero-address check, self-transfer check. -/
def transfer (st : Registry) (caller : Addr) (now : Nat)
    (name : Str) (newOwner : Addr) : Except RegError Registry :=
  if st.paused then .error .enforcedPause
  else if (st.registry name).owner ≠ caller then .error .notOwner
  else if newOwner = 0 then .error .invalidNewOwner
  else if newOwner = caller then .error .alreadyOwner
  else .ok (transferEffect st now name newOwner)

/-- `getRecord(name)` (`BaseRegistry.sol` lines 171–183): returns the four
fields, zero-valued for an unregistered name. -/
def getRecord (st : Registry) (name : Str) : Addr × Str × Nat × Nat :=
  ((st.registry name).owner, (st.registry name).data,
   (st.registry name).createdAt, (st.registry name).updatedAt)

/-- `isAvailable(name)` (`BaseRegistry.sol` lines 190–192). -/
def isAvailable (st : Registry) (name : Str) : Bool :=
  (st.registry name).owner == 0

/-- `getOwnedNames(owner)` (`BaseRegistry.sol` lines 199–201). -/
def getOwnedNames (st : Registry) (a : Addr) : List Str :=
  st.ownedNames a

/-- `setRegistrationFee(newFee)` (`BaseRegistry.sol` lines 207–211),
`onlyOwner`. -/
def setRegistrationFee (st : Registry) (caller : Addr) (newFee : Nat) :
    Except RegError Registry :=
  if caller ≠ st.admin then .error .notAdmin
  else .ok { st with registrationFee := newFee }

/-- `pause()` (`BaseRegistry.sol` lines 216–218), `onlyOwner`.
Modelled from the spec: the missing `Pausable._pause` carries the §4.5
idempotent guard, rejecting a pause while already paused. -/
def pause (st : Registry) (caller : Addr) : Except RegError Registry :=
  if caller ≠ st.admin then .error .notAdmin
  else if st.paused then .error .enforcedPause
  else .ok { st with paused := true }

/-- `unpause()` (`BaseRegistry.sol` lines 223–225), `onlyOwner`.
Modelled from the spec: the missing `Pausable._unpause` carries the §4.5
idempotent guard, rejecting an unpause while not paused. -/
def unpause (st : Registry) (caller : Addr) : Except RegError Registry :=
  if caller ≠ st.admin then .error .notAdmin
  else if st.paused = false then .error .expectedPause
  else .ok { st with paused := false }

/-- `withdraw(to)` (`BaseRegistry.sol` lines 231–240), `onlyOwner`: the
amount is captured from `address(this).balance` before the external call;
a failing payout (`payoutOk = false`) reverts the whole transaction. -/
def withdraw (st : Registry) (caller dest : Addr) (payoutOk : Bool) :
    Except RegError Registry :=
  if caller ≠ st.admin then .error .notAdmin
  else if dest = 0 then .error .invalidAddress
  else if st.balance = 0 then .error .noFunds
  else if payoutOk = false then .error .withdrawFailed
  else .ok
    { st with
      balance := 0,
      transfersOut := st.transfersOut ++ [(dest, st.balance)] }

/-- `receive()` (`BaseRegistry.sol` line 245): a direct deposit is accepted
unconditionally and only increases the held balance. -/
def deposit (st : Registry) (amount : Nat) : Registry :=
  { st with balance := st.balance + amount }

/-- The constructor (`BaseRegistry.sol` lines 65–67): `admin = deployer`,
`registrationFee = initialFee`, everything else empty/zero. -/
def initialRegistry (initialFee : Nat) (deployer : Addr) : Registry :=
  { registry := fun _ => emptyRecord,
    ownedNames := fun _ => [],
    registrationFee := initialFee,
    paused := false,
    admin := deployer,
    balance := 0,
    transfersOut := [] }

/-- One external call to the contract, with its sender, attached value,
timestamp, and (for the two calls doing outbound transfers) the outcome of
the external value transfer. -/
inductive Op where
  | register (caller : Addr) (payment now : Nat) (name data : Str) (refundOk : Bool)
  | update (caller : Addr) (now : Nat) (name data : Str)
  | transfer (caller : Addr) (now : Nat) (name : Str) (newOwner : Addr)
  | setRegistrationFee (caller : Addr) (newFee : Nat)
  | pause (caller : Addr)
  | unpause (caller : Addr)
  | withdraw (caller dest : Addr) (payoutOk : Bool)
  | deposit (amount : Nat)
deriving Repr, DecidableEq

/-- Dispatch one call against the current state. -/
def applyOp (st : Registry) : Op → Except RegError Registry
  | .register c p t n d r => register st c p t n d r
  | .update c t n d => update st c t n d
  | .transfer c t n o => transfer st c t n o
  | .setRegistrationFee c f => setRegistrationFee st c f
  | .pause c => pause st c
  | .unpause c => unpause st c
  | .withdraw c dst ok => withdraw st c dst ok
  | .deposit a => .ok (deposit st a)

/-- Whether a call succeeds against the current state. -/
def success (st : Registry) (op : Op) : Bool :=
  match applyOp st op with
  | .ok _ => true
  | .error _ => false

/-- Transaction semantics of one call: a reverted call leaves the state
unchanged. -/
def step (st : Registry) (op : Op) : Registry :=
  match applyOp st op with
  | .ok st1 => st1
  | .error _ => st

/-- Run a sequence of calls in the host's serialization order. -/
def exec (st : Registry) : List Op → Registry
  | [] => st
  | op :: rest => exec (step st op) rest

/-- The host guarantees `msg.sender ≠ address(0)`: the sender of a
user-facing call is non-zero. -/
def opCallerOK : Op → Bool
  | .register c _ _ _ _ _ => c != 0
  | .update c _ _ _ => c != 0
  | .transfer c _ _ _ => c != 0
  | _ => true

/-- Every call in the trace has a non-zero sender. -/
def validCallers (ops : List Op) : Bool :=
  ops.all opCallerOK

/-- Whether `op`, run against `st`, is a successful registration of `name`. -/
def successfulRegisterOf (st : Registry) (op : Op) (name : Str) : Bool :=
  match op with
  | .register c p t m d r => (m == name) && success st (.register c p t m d r)
  | _ => false

/-- Whether some call of the trace successfully registers `name`. -/
def registeredDuring : Registry → List Op → Str → Bool
  | _, [], _ => false
  | st, op :: rest, name =>
    successfulRegisterOf st op name || registeredDuring (step st op) rest name

/-- Number of successful registrations in a trace. -/
def regSuccessCount : Registry → List Op → Nat
  | _, [] => 0
  | st, op :: rest =>
    (match op with
     | .register _ _ _ _ _ _ => if success st op then 1 else 0
     | _ => 0) + regSuccessCount (step st op) rest

/-- Total amount of direct deposits (`receive()`) in a trace. -/
def depositSum : List Op → Nat
  | [] => 0
  | .deposit a :: rest => a + depositSum rest
  | _ :: rest => depositSum rest

/-- A trace with no fee changes and no withdrawals. -/
def noFeeChangeNoWithdraw (ops : List Op) : Bool :=
  ops.all fun op =>
    match op with
    | .setRegistrationFee _ _ => false
    | .withdraw _ _ _ => false
    | _ => true

/-- The host's clock is non-decreasing: each timestamped call carries a
`block.timestamp` at least every timestamp already stored in the registry. -/
def opClock (op : Op) (st : Registry) : Prop :=
  match op with
  | .register _ _ t _ _ _ => ∀ n, (st.registry n).updatedAt ≤ t
  | .update _ t _ _ => ∀ n, (st.registry n).updatedAt ≤ t
  | .transfer _ t _ _ => ∀ n, (st.registry n).updatedAt ≤ t
  | _ => True

/-- `opClock` holds at every point of the trace. -/
def ClockOK : Registry → List Op → Prop
  | _, [] => True
  | st, op :: rest => opClock op st ∧ ClockOK (step st op) rest

/-! ## Helper lemmas: transaction semantics of `step` -/

theorem step_of_ok {st st1 : Registry} {op : Op}
    (h : applyOp st op = .ok st1) : step st op = st1 := by
  unfold step
  rw [h]

theorem step_of_error {st : Registry} {op : Op} {e : RegError}
    (h : applyOp st op = .error e) : step st op = st := by
  unfold step
  rw [h]

/-! ## Helper lemmas: inversion of each operation's success -/

/-- The guards of a successful `register` call all passed, and the result
is exactly `registerEffect`. -/
theorem register_ok_elim {st st1 : Registry} {c : Addr} {p t : Nat}
    {name data : Str} {r : Bool}
    (h : register st c p t name data r = .ok st1) :
    st.paused = false ∧ name ≠ [] ∧ name.length ≤ MAX_NAME_LENGTH ∧
    data.length ≤ MAX_DATA_LENGTH ∧ (st.registry name).owner = 0 ∧
    st.registrationFee ≤ p ∧ (st.registrationFee < p → r = true) ∧
    st1 = registerEffect st c p t name data := by
  unfold register at h
  split_ifs at h with h1 h2 h3 h4 h5 h6 h7
  all_goals cases h
  refine ⟨by simpa using h1, by simpa using h2, by omega, by omega,
    by simpa using h5, by omega, ?_, rfl⟩
  intro hlt
  by_cases hr : r = true
  · exact hr
  · exact absurd ⟨hlt, by simpa using hr⟩ h7

/-- If all of `register`'s guards pass, the call succeeds with exactly the
`registerEffect` state. -/
theorem register_ok_intro {st : Registry} {c : Addr} {p t : Nat}
    {name data : Str} {r : Bool}
    (h1 : st.paused = false) (h2 : name ≠ [])
    (h3 : name.length ≤ MAX_NAME_LENGTH) (h4 : data.length ≤ MAX_DATA_LENGTH)
    (h5 : (st.registry name).owner = 0) (h6 : st.registrationFee ≤ p)
    (h7 : st.registrationFee < p → r = true) :
    register st c p t name data r = .ok (registerEffect st c p t name data) := by
  unfold register
  rw [if_neg (by simp [h1]), if_neg (by simp [h2]),
    if_neg (by omega), if_neg (by omega),
    if_neg (by simp [h5]), if_neg (by omega),
    if_neg (by rintro ⟨ha, hb⟩; rw [h7 ha] at hb; cases hb)]

/-- The guards of a successful `update` call all passed, and the result is
exactly `updateEffect`. -/
theorem update_ok_elim {st st1 : Registry} {c : Addr} {t : Nat}
    {name data : Str}
    (h : update st c t name data = .ok st1) :
    st.paused = false ∧ (st.registry name).owner = c ∧
    data.length ≤ MAX_DATA_LENGTH ∧ st1 = updateEffect st t name data := by
  unfold update at h
  split_ifs at h with h1 h2 h3
  all_goals cases h
  exact ⟨by simpa using h1, by simpa using h2, by omega, rfl⟩

/-- If all of `update`'s guards pass, the call succeeds with exactly the
`updateEffect` state. -/
theorem update_ok_intro {st : Registry} {c : Addr} {t : Nat}
    {name data : Str}
    (h1 : st.paused = false) (h2 : (st.registry name).owner = c)
    (h3 : data.length ≤ MAX_DATA_LENGTH) :
    update st c t name data = .ok (updateEffect st t name data) := by
  unfold update
  rw [if_neg (by simp [h1]), if_neg (by simp [h2]), if_neg (by omega)]

/-- The guards of a successful `transfer` call all passed, and the result is
exactly `transferEffect`. -/
theorem transfer_ok_elim {st st1 : Registry} {c newOwner : Addr} {t : Nat}
    {name : Str}
    (h : transfer st c t name newOwner = .ok st1) :
    st.paused = false ∧ (st.registry name).owner = c ∧ newOwner ≠ 0 ∧
    newOwner ≠ c ∧ st1 = transferEffect st t name newOwner := by
  unfold transfer at h
  split_ifs at h with h1 h2 h3 h4
  all_goals cases h
  exact ⟨by simpa using h1, by simpa using h2, h3, h4, rfl⟩

/-- If all of `transfer`'s guards pass, the call succeeds with exactly the
`transferEffect` state. -/
theorem transfer_ok_intro {st : Registry} {c newOwner : Addr} {t : Nat}
    {name : Str}
    (h1 : st.paused = false) (h2 : (st.registry name).owner = c)
    (h3 : newOwner ≠ 0) (h4 : newOwner ≠ c) :
    transfer st c t name newOwner = .ok (transferEffect st t name newOwner) := by
  unfold transfer
  rw [if_neg (by simp [h1]), if_neg (by simp [h2]), if_neg h3, if_neg h4]

/-- Characterization of `setRegistrationFee`. -/
theorem setRegistrationFee_ok_elim {st st1 : Registry} {c : Addr} {f : Nat}
    (h : setRegistrationFee st c f = .ok st1) :
    c = st.admin ∧ st1 = { st with registrationFee := f } := by
  unfold setRegistrationFee at h
  split_ifs at h with h1
  all_goals cases h
  exact ⟨by simpa using h1, rfl⟩

/-- Characterization of a successful `pause`. -/
theorem pause_ok_elim {st st1 : Registry} {c : Addr}
    (h : pause st c = .ok st1) :
    c = st.admin ∧ st.paused = false ∧ st1 = { st with paused := true } := by
  unfold pause at h
  split_ifs at h with h1 h2
  all_goals cases h
  exact ⟨by simpa using h1, by simpa using h2, rfl⟩

/-- Characterization of a successful `unpause`. -/
theorem unpause_ok_elim {st st1 : Registry} {c : Addr}
    (h : unpause st c = .ok st1) :
    c = st.admin ∧ st.paused = true ∧ st1 = { st with paused := false } := by
  unfold unpause at h
  split_ifs at h with h1 h2
  all_goals cases h
  exact ⟨by simpa using h1, by simpa using h2, rfl⟩

/-- The guards of a successful `withdraw` call all passed, and the result
zeroes the balance having sent the whole pre-call balance to `dest`. -/
theorem withdraw_ok_elim {st st1 : Registry} {c dest : Addr} {payoutOk : Bool}
    (h : withdraw st c dest payoutOk = .ok st1) :
    c = st.admin ∧ dest ≠ 0 ∧ 0 < st.balance ∧ payoutOk = true ∧
    st1 = { st with
            balance := 0,
            transfersOut := st.transfersOut ++ [(dest, st.balance)] } := by
  unfold withdraw at h
  split_ifs at h with h1 h2 h3 h4
  all_goals cases h
  exact ⟨by simpa using h1, h2, by omega, by simpa using h4, rfl⟩

/-- If all of `withdraw`'s guards pass, the call succeeds, zeroing the
balance and sending the whole pre-call balance to `dest`. -/
theorem withdraw_ok_intro {st : Registry} {c dest : Addr} {payoutOk : Bool}
    (h1 : c = st.admin) (h2 : dest ≠ 0) (h3 : 0 < st.balance)
    (h4 : payoutOk = true) :
    withdraw st c dest payoutOk =
      .ok { st with
            balance := 0,
            transfersOut := st.transfersOut ++ [(dest, st.balance)] } := by
  unfold withdraw
  rw [if_neg (by simp [h1]), if_neg h2, if_neg (by omega),
    if_neg (by simp [h4])]

/-! ## Helper lemmas: single-step trace facts -/

/-- A registered record stays registered, and its `createdAt` never changes:
no operation deletes a record or rewrites `createdAt` of an existing one
(`register` requires a zero owner, `transfer` requires a non-zero new
owner). -/
theorem step_registered_stable {st : Registry} {op : Op} {n : Str}
    (h : (st.registry n).owner ≠ 0) :
    ((step st op).registry n).owner ≠ 0 ∧
    ((step st op).registry n).createdAt = (st.registry n).createdAt := by
  cases hap : applyOp st op with
  | error e => rw [step_of_error hap]; exact ⟨h, rfl⟩
  | ok st1 =>
    rw [step_of_ok hap]
    cases op with
    | register c p t name d r =>
      simp only [applyOp] at hap
      obtain ⟨-, -, -, -, h5, -, -, rfl⟩ := register_ok_elim hap
      by_cases hn : n = name
      · exact absurd (hn ▸ h5) h
      · simp [registerEffect, hn]
        exact h
    | update c t name d =>
      simp only [applyOp] at hap
      obtain ⟨-, -, -, rfl⟩ := update_ok_elim hap
      by_cases hn : n = name
      · subst hn
        simp [updateEffect]
        exact h
      · simp [updateEffect, hn]
        exact h
    | transfer c t name newOwner =>
      simp only [applyOp] at hap
      obtain ⟨-, -, h3, -, rfl⟩ := transfer_ok_elim hap
      by_cases hn : n = name
      · subst hn
        simp [transferEffect]
        exact h3
      · simp [transferEffect, hn]
        exact h
    | setRegistrationFee c f =>
      simp only [applyOp] at hap
      obtain ⟨-, rfl⟩ := setRegistrationFee_ok_elim hap
      exact ⟨h, rfl⟩
    | pause c =>
      simp only [applyOp] at hap
      obtain ⟨-, -, rfl⟩ := pause_ok_elim hap
      exact ⟨h, rfl⟩
    | unpause c =>
      simp only [applyOp] at hap
      obtain ⟨-, -, rfl⟩ := unpause_ok_elim hap
      exact ⟨h, rfl⟩
    | withdraw c dst ok =>
      simp only [applyOp] at hap
      obtain ⟨-, -, -, -, rfl⟩ := withdraw_ok_elim hap
      exact ⟨h, rfl⟩
    | deposit a =>
      simp only [applyOp, deposit] at hap
      cases hap
      exact ⟨h, rfl⟩

/-- A name is owned after a step exactly when it was owned before or the
step is a successful registration of it (no operation un-registers). -/
theorem step_owner_nonzero_iff {st : Registry} {op : Op} {n : Str}
    (hvc : opCallerOK op = true) :
    ((step st op).registry n).owner ≠ 0 ↔
    ((st.registry n).owner ≠ 0 ∨ successfulRegisterOf st op n = true) := by
  have hsucc : ∀ st1, applyOp st op = .ok st1 → success st op = true := by
    intro st1 h1
    unfold success
    rw [h1]
  cases hap : applyOp st op with
  | error e =>
    rw [step_of_error hap]
    have hf : success st op = false := by
      unfold success
      rw [hap]
    cases op <;> simp [successfulRegisterOf, hf]
  | ok st1 =>
    rw [step_of_ok hap]
    cases op with
    | register c p t name d r =>
      have hs := hsucc _ hap
      simp only [applyOp] at hap
      obtain ⟨-, -, -, -, h5, -, -, rfl⟩ := register_ok_elim hap
      by_cases hn : n = name
      · subst hn
        simp [registerEffect, successfulRegisterOf, hs]
        simpa [opCallerOK] using hvc
      · simp [registerEffect, successfulRegisterOf, hs, hn]
        intro hcontra
        exact absurd hcontra.symm hn
    | update c t name d =>
      simp only [applyOp] at hap
      obtain ⟨-, -, -, rfl⟩ := update_ok_elim hap
      by_cases hn : n = name
      · subst hn
        simp [updateEffect, successfulRegisterOf]
      · simp [updateEffect, successfulRegisterOf, hn]
    | transfer c t name newOwner =>
      simp only [applyOp] at hap
      obtain ⟨-, h2, h3, -, rfl⟩ := transfer_ok_elim hap
      by_cases hn : n = name
      · subst hn
        simp only [opCallerOK] at hvc
        simp [transferEffect, successfulRegisterOf, h3, h2]
        simpa using hvc
      · simp [transferEffect, successfulRegisterOf, hn]
    | setRegistrationFee c f =>
      simp only [applyOp] at hap
      obtain ⟨-, rfl⟩ := setRegistrationFee_ok_elim hap
      simp [successfulRegisterOf]
    | pause c =>
      simp only [applyOp] at hap
      obtain ⟨-, -, rfl⟩ := pause_ok_elim hap
      simp [successfulRegisterOf]
    | unpause c =>
      simp only [applyOp] at hap
      obtain ⟨-, -, rfl⟩ := unpause_ok_elim hap
      simp [successfulRegisterOf]
    | withdraw c dst ok =>
      simp only [applyOp] at hap
      obtain ⟨-, -, -, -, rfl⟩ := withdraw_ok_elim hap
      simp [successfulRegisterOf]
    | deposit a =>
      simp only [applyOp, deposit] at hap
      cases hap
      simp [successfulRegisterOf]

/-- With a non-decreasing host clock, one step keeps `createdAt ≤ updatedAt`
and never decreases `updatedAt`. -/
theorem step_timestamps {st : Registry} {op : Op}
    (hclk : opClock op st) (n : Str) :
    ((st.registry n).createdAt ≤ (st.registry n).updatedAt →
      ((step st op).registry n).createdAt ≤ ((step st op).registry n).updatedAt) ∧
    (st.registry n).updatedAt ≤ ((step st op).registry n).updatedAt := by
  cases hap : applyOp st op with
  | error e => rw [step_of_error hap]; exact ⟨id, le_refl _⟩
  | ok st1 =>
    rw [step_of_ok hap]
    cases op with
    | register c p t name d r =>
      simp only [applyOp] at hap
      obtain ⟨-, -, -, -, -, -, -, rfl⟩ := register_ok_elim hap
      by_cases hn : n = name
      · subst hn
        simp [registerEffect]
        exact hclk n
      · simp [registerEffect, hn]
    | update c t name d =>
      simp only [applyOp] at hap
      obtain ⟨-, -, -, rfl⟩ := update_ok_elim hap
      by_cases hn : n = name
      · subst hn
        simp [updateEffect]
        have := hclk n
        exact ⟨fun h1 => le_trans h1 this, this⟩
      · simp [updateEffect, hn]
    | transfer c t name newOwner =>
      simp only [applyOp] at hap
      obtain ⟨-, -, -, -, rfl⟩ := transfer_ok_elim hap
      by_cases hn : n = name
      · subst hn
        simp [transferEffect]
        have := hclk n
        exact ⟨fun h1 => le_trans h1 this, this⟩
      · simp [transferEffect, hn]
    | setRegistrationFee c f =>
      simp only [applyOp] at hap
      obtain ⟨-, rfl⟩ := setRegistrationFee_ok_elim hap
      exact ⟨id, le_refl _⟩
    | pause c =>
      simp only [applyOp] at hap
      obtain ⟨-, -, rfl⟩ := pause_ok_elim hap
      exact ⟨id, le_refl _⟩
    | unpause c =>
      simp only [applyOp] at hap
      obtain ⟨-, -, rfl⟩ := unpause_ok_elim hap
      exact ⟨id, le_refl _⟩
    | withdraw c dst ok =>
      simp only [applyOp] at hap
      obtain ⟨-, -, -, -, rfl⟩ := withdraw_ok_elim hap
      exact ⟨id, le_refl _⟩
    | deposit a =>
      simp only [applyOp, deposit] at hap
      cases hap
      exact ⟨id, le_refl _⟩

/-- A call succeeds exactly when `applyOp` returns a state. -/
theorem success_iff_ok {st : Registry} {op : Op} :
    success st op = true ↔ ∃ st1, applyOp st op = .ok st1 := by
  unfold success
  cases h : applyOp st op <;> simp

/-! ## Helper lemmas: whole-trace facts -/

/-- A registered record stays registered with an unchanged `createdAt`
through any trace. -/
theorem exec_registered_stable {st : Registry} {ops : List Op} {n : Str}
    (h : (st.registry n).owner ≠ 0) :
    ((exec st ops).registry n).owner ≠ 0 ∧
    ((exec st ops).registry n).createdAt = (st.registry n).createdAt := by
  induction ops generalizing st with
  | nil => exact ⟨h, rfl⟩
  | cons op rest ih =>
    obtain ⟨h1, h2⟩ := @step_registered_stable st op n h
    obtain ⟨h3, h4⟩ := ih h1
    exact ⟨h3, h4.trans h2⟩

/-- Over a trace of calls with non-zero senders, a name is owned at the end
exactly when it was owned at the start or some call of the trace
successfully registered it. -/
theorem exec_owner_nonzero_iff {st : Registry} {ops : List Op} {n : Str}
    (hvc : validCallers ops = true) :
    ((exec st ops).registry n).owner ≠ 0 ↔
    ((st.registry n).owner ≠ 0 ∨ registeredDuring st ops n = true) := by
  induction ops generalizing st with
  | nil => simp [exec, registeredDuring]
  | cons op rest ih =>
    simp only [validCallers, List.all_cons, Bool.and_eq_true] at hvc
    have hstep := @step_owner_nonzero_iff st op n hvc.1
    have htail := @ih (step st op) (by simpa [validCallers] using hvc.2)
    simp only [exec, registeredDuring, Bool.or_eq_true]
    rw [htail, hstep]
    tauto

/-- With a non-decreasing host clock, `createdAt ≤ updatedAt` is preserved
and `updatedAt` never decreases over any trace. -/
theorem exec_timestamps {st : Registry} {ops : List Op}
    (hclk : ClockOK st ops) (n : Str) :
    ((st.registry n).createdAt ≤ (st.registry n).updatedAt →
      ((exec st ops).registry n).createdAt ≤ ((exec st ops).registry n).updatedAt) ∧
    (st.registry n).updatedAt ≤ ((exec st ops).registry n).updatedAt := by
  induction ops generalizing st with
  | nil => exact ⟨id, le_refl _⟩
  | cons op rest ih =>
    obtain ⟨hc1, hc2⟩ := hclk
    obtain ⟨s1, s2⟩ := @step_timestamps st op hc1 n
    obtain ⟨t1, t2⟩ := @ih (step st op) hc2
    exact ⟨fun h0 => t1 (s1 h0), le_trans s2 t2⟩

/-- A name registered at some point of a trace passed `register`'s name
validation: it is non-empty and within `MAX_NAME_LENGTH`. -/
theorem registeredDuring_name_valid {st : Registry} {ops : List Op} {n : Str}
    (h : registeredDuring st ops n = true) :
    n ≠ [] ∧ n.length ≤ MAX_NAME_LENGTH := by
  induction ops generalizing st with
  | nil => simp [registeredDuring] at h
  | cons op rest ih =>
    simp only [registeredDuring, Bool.or_eq_true] at h
    rcases h with h | h
    · cases op with
      | register c p t m d r =>
        simp only [successfulRegisterOf, Bool.and_eq_true, beq_iff_eq] at h
        obtain ⟨rfl, hs⟩ := h
        obtain ⟨st1, hok⟩ := success_iff_ok.mp hs
        simp only [applyOp] at hok
        obtain ⟨-, h2, h3, -⟩ := register_ok_elim hok
        exact ⟨h2, h3⟩
      | update c t m d => simp [successfulRegisterOf] at h
      | transfer c t m o => simp [successfulRegisterOf] at h
      | setRegistrationFee c f => simp [successfulRegisterOf] at h
      | pause c => simp [successfulRegisterOf] at h
      | unpause c => simp [successfulRegisterOf] at h
      | withdraw c dst ok => simp [successfulRegisterOf] at h
      | deposit a => simp [successfulRegisterOf] at h
    · exact ih h

/-- Calls in a trace with neither fee changes nor withdrawals. -/
theorem noFeeChangeNoWithdraw_cons {op : Op} {rest : List Op} :
    noFeeChangeNoWithdraw (op :: rest) = true ↔
    ((match op with
      | .setRegistrationFee _ _ => False
      | .withdraw _ _ _ => False
      | _ => True) ∧ noFeeChangeNoWithdraw rest = true) := by
  cases op <;> simp [noFeeChangeNoWithdraw]

/-- Over a trace with no fee change and no withdrawal, the fee is constant
and the balance grows by exactly one fee per successful registration plus
the direct deposits. -/
theorem exec_balance {st : Registry} {ops : List Op}
    (h : noFeeChangeNoWithdraw ops = true) :
    (exec st ops).registrationFee = st.registrationFee ∧
    (exec st ops).balance =
      st.balance + st.registrationFee * regSuccessCount st ops +
        depositSum ops := by
  induction ops generalizing st with
  | nil => simp [exec, regSuccessCount, depositSum]
  | cons op rest ih =>
    obtain ⟨hop, hrest⟩ := noFeeChangeNoWithdraw_cons.mp h
    have hstep : (step st op).registrationFee = st.registrationFee ∧
        (step st op).balance =
          st.balance +
            (match op with
             | .register _ _ _ _ _ _ =>
                if success st op then st.registrationFee else 0
             | .deposit a => a
             | _ => 0) := by
      cases hap : applyOp st op with
      | error e =>
        rw [step_of_error hap]
        have hf : success st op = false := by
          unfold success
          rw [hap]
        cases op <;> simp [hf] <;> simp [applyOp, deposit] at hap
      | ok st1 =>
        rw [step_of_ok hap]
        have hs : success st op = true := by
          unfold success
          rw [hap]
        cases op with
        | register c p t name d r =>
          simp only [applyOp] at hap
          obtain ⟨-, -, -, -, -, -, -, rfl⟩ := register_ok_elim hap
          simp [registerEffect, hs]
        | update c t name d =>
          simp only [applyOp] at hap
          obtain ⟨-, -, -, rfl⟩ := update_ok_elim hap
          simp [updateEffect]
        | transfer c t name o =>
          simp only [applyOp] at hap
          obtain ⟨-, -, -, -, rfl⟩ := transfer_ok_elim hap
          simp [transferEffect]
        | setRegistrationFee c f => exact absurd hop not_false
        | pause c =>
          simp only [applyOp] at hap
          obtain ⟨-, -, rfl⟩ := pause_ok_elim hap
          simp
        | unpause c =>
          simp only [applyOp] at hap
          obtain ⟨-, -, rfl⟩ := unpause_ok_elim hap
          simp
        | withdraw c dst ok => exact absurd hop not_false
        | deposit a =>
          simp only [applyOp, deposit] at hap
          cases hap
          simp
    obtain ⟨hf, hb⟩ := hstep
    obtain ⟨tf, tb⟩ := @ih (step st op) hrest
    refine ⟨tf.trans hf, ?_⟩
    simp only [exec] at tb ⊢
    rw [tb, hf, hb]
    cases op with
    | register c p t name d r =>
      by_cases hs : success st (Op.register c p t name d r) = true
      · simp [regSuccessCount, depositSum, hs, Nat.mul_add]
        ring
      · simp only [Bool.not_eq_true] at hs
        simp [regSuccessCount, depositSum, hs]
    | update c t name d =>
      simp [regSuccessCount, depositSum]
    | transfer c t name o =>
      simp [regSuccessCount, depositSum]
    | setRegistrationFee c f => exact absurd hop not_false
    | pause c =>
      simp [regSuccessCount, depositSum]
    | unpause c =>
      simp [regSuccessCount, depositSum]
    | withdraw c dst ok => exact absurd hop not_false
    | deposit a =>
      simp [regSuccessCount, depositSum]
      ring

/-! ## Claims -/

/-- C1: if all of `register`'s preconditions hold (name non-empty and at
most 32 bytes, data at most 256 bytes, name unregistered, payment at least
`registrationFee`, registry not paused), the call succeeds: the record for
`name` becomes `{owner: caller, data, createdAt: now, updatedAt: now}`,
`name` is appended to `ownedNames[caller]`, the balance grows by exactly
`registrationFee`, and any excess payment is refunded to the caller; if the
refund transfer fails the whole call reverts with no state change. -/
theorem register_functional_correctness (st : Registry) (caller : Addr)
    (payment now : Nat) (name data : Str) (refundOk : Bool)
    (hpause : st.paused = false) (hname : name ≠ [])
    (hnlen : name.length ≤ MAX_NAME_LENGTH)
    (hdlen : data.length ≤ MAX_DATA_LENGTH)
    (hfree : (st.registry name).owner = 0)
    (hfee : st.registrationFee ≤ payment) :
    ((st.registrationFee < payment → refundOk = true) →
      ∃ st1, register st caller payment now name data refundOk = .ok st1 ∧
        st1.registry name =
          { owner := caller, data := data, createdAt := now, updatedAt := now } ∧
        st1.ownedNames caller = st.ownedNames caller ++ [name] ∧
        st1.balance = st.balance + st.registrationFee ∧
        (st.registrationFee < payment →
          st1.transfersOut =
            st.transfersOut ++ [(caller, payment - st.registrationFee)]) ∧
        (payment ≤ st.registrationFee → st1.transfersOut = st.transfersOut)) ∧
    (st.registrationFee < payment → refundOk = false →
      register st caller payment now name data refundOk = .error .refundFailed ∧
      step st (.register caller payment now name data refundOk) = st) := by
  constructor
  · intro hr
    refine ⟨_, register_ok_intro hpause hname hnlen hdlen hfree hfee hr,
      ?_, ?_, rfl, ?_, ?_⟩
    · simp [registerEffect]
    · simp [registerEffect]
    · intro hlt
      simp [registerEffect, hlt]
    · intro hle
      simp [registerEffect]
      omega
  · intro hlt hrf
    have herr : register st caller payment now name data refundOk =
        .error .refundFailed := by
      unfold register
      rw [if_neg (by simp [hpause]), if_neg (by simp [hname]),
        if_neg (by omega), if_neg (by omega), if_neg (by simp [hfree]),
        if_neg (by omega), if_pos ⟨hlt, hrf⟩]
    exact ⟨herr, step_of_error (by simpa [applyOp] using herr)⟩

/-- Witness for C1 at a concrete input: fee 10, payment 15, refund works. -/
theorem register_functional_correctness_witness :
    (initialRegistry 10 9).paused = false ∧
    ([1] : Str) ≠ [] ∧ ([1] : Str).length ≤ MAX_NAME_LENGTH ∧
    ([2] : Str).length ≤ MAX_DATA_LENGTH ∧
    ((initialRegistry 10 9).registry [1]).owner = 0 ∧
    (initialRegistry 10 9).registrationFee ≤ 15 ∧
    (((initialRegistry 10 9).registrationFee < 15 → true = true) →
      ∃ st1, register (initialRegistry 10 9) 1 15 5 [1] [2] true = .ok st1 ∧
        st1.registry [1] =
          { owner := 1, data := [2], createdAt := 5, updatedAt := 5 } ∧
        st1.ownedNames 1 = (initialRegistry 10 9).ownedNames 1 ++ [[1]] ∧
        st1.balance = (initialRegistry 10 9).balance +
          (initialRegistry 10 9).registrationFee ∧
        ((initialRegistry 10 9).registrationFee < 15 →
          st1.transfersOut = (initialRegistry 10 9).transfersOut ++
            [(1, 15 - (initialRegistry 10 9).registrationFee)]) ∧
        (15 ≤ (initialRegistry 10 9).registrationFee →
          st1.transfersOut = (initialRegistry 10 9).transfersOut)) :=
  ⟨rfl, by decide, by decide, by decide, rfl, by decide,
    (register_functional_correctness (initialRegistry 10 9) 1 15 5 [1] [2] true
      rfl (by decide) (by decide) (by decide) rfl (by decide)).1⟩

/-- C2 counterexample: the pause gate is a modifier and runs before the
name validation, so a `register` call with an empty name on a paused
registry reports the pause error, not the name-validation error the claim
requires. -/
theorem register_check_order_counterexample :
    { initialRegistry 10 9 with paused := true }.paused = true ∧
    ([] : Str) = [] ∧
    register { initialRegistry 10 9 with paused := true } 1 10 0 [] [] true =
      .error .enforcedPause ∧
    RegError.enforcedPause ≠ RegError.emptyName :=
  ⟨rfl, rfl, rfl, by decide⟩

/-- C2 (amended): `register` checks its preconditions in the code's order —
pause gate first (it is a modifier), then name non-empty, name length ≤ 32,
data length ≤ 256, name unregistered, payment ≥ fee — the failure reported
is the earliest failing check in that order, and any failing check aborts
with no state change. In particular, an empty name while paused reports the
pause error. -/
theorem register_check_order (st : Registry) (caller : Addr)
    (payment now : Nat) (name data : Str) (refundOk : Bool) :
    (st.paused = true →
      register st caller payment now name data refundOk =
        .error .enforcedPause) ∧
    (st.paused = false → name = [] →
      register st caller payment now name data refundOk =
        .error .emptyName) ∧
    (st.paused = false → name ≠ [] → MAX_NAME_LENGTH < name.length →
      register st caller payment now name data refundOk =
        .error .nameTooLong) ∧
    (st.paused = false → name ≠ [] → name.length ≤ MAX_NAME_LENGTH →
      MAX_DATA_LENGTH < data.length →
      register st caller payment now name data refundOk =
        .error .dataTooLong) ∧
    (st.paused = false → name ≠ [] → name.length ≤ MAX_NAME_LENGTH →
      data.length ≤ MAX_DATA_LENGTH → (st.registry name).owner ≠ 0 →
      register st caller payment now name data refundOk =
        .error .alreadyRegistered) ∧
    (st.paused = false → name ≠ [] → name.length ≤ MAX_NAME_LENGTH →
      data.length ≤ MAX_DATA_LENGTH → (st.registry name).owner = 0 →
      payment < st.registrationFee →
      register st caller payment now name data refundOk =
        .error .insufficientFee) ∧
    (∀ e, register st caller payment now name data refundOk = .error e →
      step st (.register caller payment now name data refundOk) = st) := by
  refine ⟨?_, ?_, ?_, ?_, ?_, ?_, ?_⟩
  · intro h1
    unfold register
    rw [if_pos (by simp [h1])]
  · intro h1 h2
    unfold register
    rw [if_neg (by simp [h1]), if_pos (by simp [h2])]
  · intro h1 h2 h3
    unfold register
    rw [if_neg (by simp [h1]), if_neg (by simp [h2]), if_pos (by omega)]
  · intro h1 h2 h3 h4
    unfold register
    rw [if_neg (by simp [h1]), if_neg (by simp [h2]), if_neg (by omega),
      if_pos (by omega)]
  · intro h1 h2 h3 h4 h5
    unfold register
    rw [if_neg (by simp [h1]), if_neg (by simp [h2]), if_neg (by omega),
      if_neg (by omega), if_pos (by simpa using h5)]
  · intro h1 h2 h3 h4 h5 h6
    unfold register
    rw [if_neg (by simp [h1]), if_neg (by simp [h2]), if_neg (by omega),
      if_neg (by omega), if_neg (by simp [h5]), if_pos (by omega)]
  · intro e he
    exact step_of_error (by simpa [applyOp] using he)

/-- Witness for C2 (amended): a paused registry rejects an empty-name call
with the pause error. -/
theorem register_check_order_witness :
    { initialRegistry 10 9 with paused := true }.paused = true ∧
    register { initialRegistry 10 9 with paused := true } 1 0 0 [] [7] false =
      .error .enforcedPause :=
  ⟨rfl,
    (register_check_order { initialRegistry 10 9 with paused := true }
      1 0 0 [] [7] false).1 rfl⟩

set_option maxRecDepth 4000 in
/-- C3 counterexample: after a successful registration of `[1]`, a second
`register` of `[1]` with 257-byte data fails with the data-length error,
not the conflict error the claim requires for every later attempt. -/
theorem uniqueness_counterexample :
    registeredDuring (initialRegistry 0 9)
      [.register 1 0 0 [1] [] true] [1] = true ∧
    register (exec (initialRegistry 0 9) [.register 1 0 0 [1] [] true])
      2 0 0 [1] (List.replicate 257 0) true = .error .dataTooLong ∧
    RegError.dataTooLong ≠ RegError.alreadyRegistered :=
  ⟨by decide, by rfl, by decide⟩

/-- C3 (amended): starting from deployment, over any trace of calls with
non-zero senders, `isAvailable name` is true iff no call of the trace
successfully registered `name` (records are never deleted); and once some
call has registered `name`, every later `register` of `name` that reaches
the conflict check — i.e. whenever the registry is not paused and the data
is within bounds — fails with the conflict error, regardless of caller and
of any intervening operations. -/
theorem uniqueness_and_availability (fee : Nat) (deployer : Addr)
    (ops : List Op) (name data : Str) (c : Addr) (p t : Nat) (r : Bool)
    (hvc : validCallers ops = true) :
    (isAvailable (exec (initialRegistry fee deployer) ops) name = true ↔
      registeredDuring (initialRegistry fee deployer) ops name = false) ∧
    (registeredDuring (initialRegistry fee deployer) ops name = true →
      (exec (initialRegistry fee deployer) ops).paused = false →
      data.length ≤ MAX_DATA_LENGTH →
      register (exec (initialRegistry fee deployer) ops) c p t name data r =
        .error .alreadyRegistered) := by
  have h0 : ((initialRegistry fee deployer).registry name).owner = 0 := rfl
  have hiff := @exec_owner_nonzero_iff (initialRegistry fee deployer) ops
    name hvc
  constructor
  · rw [isAvailable]
    constructor
    · intro h
      by_contra hreg
      simp only [Bool.not_eq_false] at hreg
      have : ((exec (initialRegistry fee deployer) ops).registry name).owner ≠ 0 :=
        hiff.mpr (Or.inr hreg)
      simp only [beq_iff_eq] at h
      exact this h
    · intro h
      by_contra hav
      have h2 : ((exec (initialRegistry fee deployer) ops).registry name).owner ≠ 0 := by
        intro hz
        exact hav (by simp [hz])
      rcases hiff.mp h2 with h3 | h3
      · exact h3 h0
      · rw [h3] at h
        cases h
  · intro hreg hpause hdlen
    obtain ⟨hne, hlen⟩ := registeredDuring_name_valid hreg
    have howner : ((exec (initialRegistry fee deployer) ops).registry name).owner ≠ 0 :=
      hiff.mpr (Or.inr hreg)
    unfold register
    rw [if_neg (by simp [hpause]), if_neg (by simp [hne]), if_neg (by omega),
      if_neg (by omega), if_pos (by simpa using howner)]

/-- Witness for C3 (amended): registering `[1]` makes it unavailable and a
second attempt (unpaused, valid data) reports the conflict error. -/
theorem uniqueness_and_availability_witness :
    validCallers [.register 1 0 0 [1] [] true] = true ∧
    registeredDuring (initialRegistry 0 9)
      [.register 1 0 0 [1] [] true] [1] = true ∧
    (exec (initialRegistry 0 9) [.register 1 0 0 [1] [] true]).paused = false ∧
    ([3] : Str).length ≤ MAX_DATA_LENGTH ∧
    (isAvailable (exec (initialRegistry 0 9) [.register 1 0 0 [1] [] true]) [1] =
        true ↔
      registeredDuring (initialRegistry 0 9)
        [.register 1 0 0 [1] [] true] [1] = false) ∧
    register (exec (initialRegistry 0 9) [.register 1 0 0 [1] [] true])
      2 0 7 [1] [3] true = .error .alreadyRegistered := by
  have h := uniqueness_and_availability 0 9
    [.register 1 0 0 [1] [] true] [1] [3] 2 0 7 true (by decide)
  exact ⟨by decide, by decide, by decide, by decide, h.1,
    h.2 (by decide) (by decide) (by decide)⟩

/-- C4 counterexample: on a paused registry, a non-owner's `update` and
`transfer` fail with the pause error, not the authorization error the
claim requires. -/
theorem ownership_gating_counterexample :
    ((exec (initialRegistry 0 9)
        [.register 3 0 0 [1] [] true, .pause 9]).registry [1]).owner = 3 ∧
    (3 : Addr) ≠ 4 ∧
    update (exec (initialRegistry 0 9)
        [.register 3 0 0 [1] [] true, .pause 9]) 4 1 [1] [2] =
      .error .enforcedPause ∧
    transfer (exec (initialRegistry 0 9)
        [.register 3 0 0 [1] [] true, .pause 9]) 4 1 [1] 5 =
      .error .enforcedPause ∧
    RegError.enforcedPause ≠ RegError.notOwner :=
  ⟨by rfl, by decide, by rfl, by rfl, by decide⟩

/-- C4 (amended): for every registered name and every caller that is not
the record's owner, `update` and `transfer` fail and leave the state
unchanged: with the authorization error when the registry is not paused,
and with the pause error when it is paused. -/
theorem ownership_gating (st : Registry) (caller newOwner : Addr) (now : Nat)
    (name data : Str)
    (hreg : (st.registry name).owner ≠ 0)
    (hnotown : (st.registry name).owner ≠ caller) :
    (st.paused = false →
      update st caller now name data = .error .notOwner ∧
      transfer st caller now name newOwner = .error .notOwner) ∧
    (st.paused = true →
      update st caller now name data = .error .enforcedPause ∧
      transfer st caller now name newOwner = .error .enforcedPause) ∧
    (∀ e, update st caller now name data = .error e →
      step st (.update caller now name data) = st) ∧
    (∀ e, transfer st caller now name newOwner = .error e →
      step st (.transfer caller now name newOwner) = st) := by
  refine ⟨?_, ?_, ?_, ?_⟩
  · intro hp
    constructor
    · unfold update
      rw [if_neg (by simp [hp]), if_pos (by simpa using hnotown)]
    · unfold transfer
      rw [if_neg (by simp [hp]), if_pos (by simpa using hnotown)]
  · intro hp
    constructor
    · unfold update
      rw [if_pos (by simp [hp])]
    · unfold transfer
      rw [if_pos (by simp [hp])]
  · intro e he
    exact step_of_error (by simpa [applyOp] using he)
  · intro e he
    exact step_of_error (by simpa [applyOp] using he)

/-- Witness for C4 (amended): caller 4 is not the owner (3) of `[1]`, so
its unpaused `update` and `transfer` report the authorization error. -/
theorem ownership_gating_witness :
    ((exec (initialRegistry 0 9)
        [.register 3 0 0 [1] [] true]).registry [1]).owner ≠ 0 ∧
    ((exec (initialRegistry 0 9)
        [.register 3 0 0 [1] [] true]).registry [1]).owner ≠ 4 ∧
    (exec (initialRegistry 0 9) [.register 3 0 0 [1] [] true]).paused = false ∧
    update (exec (initialRegistry 0 9) [.register 3 0 0 [1] [] true])
      4 1 [1] [2] = .error .notOwner ∧
    transfer (exec (initialRegistry 0 9) [.register 3 0 0 [1] [] true])
      4 1 [1] 5 = .error .notOwner := by
  have h := ownership_gating
    (exec (initialRegistry 0 9) [.register 3 0 0 [1] [] true])
    4 5 1 [1] [2] (by decide) (by decide)
  exact ⟨by decide, by decide, by decide, (h.1 (by decide)).1, (h.1 (by decide)).2⟩

/-- C5: assuming the host clock is non-decreasing across operations
(`ClockOK`), every record satisfies `createdAt ≤ updatedAt` at all times,
`createdAt` never changes once the record exists, and `updatedAt` after any
trace of operations — in particular after any successful `update` or
`transfer` — is at least its value before. -/
theorem monotonic_timestamps (st : Registry) (ops : List Op) (name : Str)
    (hinv : ∀ n, (st.registry n).createdAt ≤ (st.registry n).updatedAt)
    (hclk : ClockOK st ops) :
    (((exec st ops).registry name).createdAt ≤
      ((exec st ops).registry name).updatedAt) ∧
    ((st.registry name).owner ≠ 0 →
      ((exec st ops).registry name).createdAt = (st.registry name).createdAt) ∧
    ((st.registry name).updatedAt ≤ ((exec st ops).registry name).updatedAt) := by
  obtain ⟨a, b⟩ := exec_timestamps hclk name
  exact ⟨a (hinv name), fun h => (exec_registered_stable h).2, b⟩

/-- Witness for C5: register `[1]` at time 3 then update it at time 7. -/
theorem monotonic_timestamps_witness :
    (∀ n, ((exec (initialRegistry 5 9) [.register 1 5 3 [1] [] true]).registry n).createdAt ≤
      ((exec (initialRegistry 5 9) [.register 1 5 3 [1] [] true]).registry n).updatedAt) ∧
    ClockOK (exec (initialRegistry 5 9) [.register 1 5 3 [1] [] true])
      [.update 1 7 [1] [2]] ∧
    ((exec (initialRegistry 5 9) [.register 1 5 3 [1] [] true]).registry [1]).owner ≠ 0 ∧
    (((exec (exec (initialRegistry 5 9) [.register 1 5 3 [1] [] true])
        [.update 1 7 [1] [2]]).registry [1]).createdAt ≤
      ((exec (exec (initialRegistry 5 9) [.register 1 5 3 [1] [] true])
        [.update 1 7 [1] [2]]).registry [1]).updatedAt) ∧
    (((exec (initialRegistry 5 9) [.register 1 5 3 [1] [] true]).registry [1]).owner ≠ 0 →
      ((exec (exec (initialRegistry 5 9) [.register 1 5 3 [1] [] true])
        [.update 1 7 [1] [2]]).registry [1]).createdAt =
      ((exec (initialRegistry 5 9) [.register 1 5 3 [1] [] true]).registry [1]).createdAt) ∧
    (((exec (initialRegistry 5 9) [.register 1 5 3 [1] [] true]).registry [1]).updatedAt ≤
      ((exec (exec (initialRegistry 5 9) [.register 1 5 3 [1] [] true])
        [.update 1 7 [1] [2]]).registry [1]).updatedAt) := by
  have hst : exec (initialRegistry 5 9) [.register 1 5 3 [1] [] true] =
      registerEffect (initialRegistry 5 9) 1 5 3 [1] [] := rfl
  have hinv : ∀ n,
      ((exec (initialRegistry 5 9) [.register 1 5 3 [1] [] true]).registry n).createdAt ≤
      ((exec (initialRegistry 5 9) [.register 1 5 3 [1] [] true]).registry n).updatedAt := by
    intro n
    rw [hst]
    by_cases h : n = [1] <;>
      simp [registerEffect, initialRegistry, emptyRecord, h]
  have hclk : ClockOK (exec (initialRegistry 5 9) [.register 1 5 3 [1] [] true])
      [.update 1 7 [1] [2]] := by
    refine ⟨?_, trivial⟩
    intro n
    show ((exec (initialRegistry 5 9) [.register 1 5 3 [1] [] true]).registry n).updatedAt ≤ 7
    rw [hst]
    by_cases h : n = [1] <;>
      simp [registerEffect, initialRegistry, emptyRecord, h]
  have h := monotonic_timestamps
    (exec (initialRegistry 5 9) [.register 1 5 3 [1] [] true])
    [.update 1 7 [1] [2]] [1] hinv hclk
  exact ⟨hinv, hclk, by decide, h.1, h.2.1, h.2.2⟩

/-- C6 counterexample: `pause` itself is not available while paused — the
idempotency guard of the pause machinery rejects pausing an already-paused
registry even for the admin, so not all four admin operations remain
available. -/
theorem pause_gating_counterexample :
    (exec (initialRegistry 0 9) [.pause 9]).paused = true ∧
    (exec (initialRegistry 0 9) [.pause 9]).admin = 9 ∧
    pause (exec (initialRegistry 0 9) [.pause 9]) 9 = .error .enforcedPause :=
  ⟨rfl, rfl, rfl⟩

/-- C6 (amended): whenever the registry is paused, `register`, `update` and
`transfer` fail for every input with no state change; pausing changes none
of the data the four queries read, so `getRecord`, `isAvailable`,
`getOwnedNames` and `registrationFee` return the same results as before the
pause; and `setRegistrationFee`, `unpause` and `withdraw` remain available
to the admin — in particular the admin can unpause while paused — while
`pause` itself is rejected by the idempotency guard when already paused. -/
theorem pause_gating (st : Registry) (hp : st.paused = true) :
    (∀ c p t n d r, register st c p t n d r = .error .enforcedPause ∧
      step st (.register c p t n d r) = st) ∧
    (∀ c t n d, update st c t n d = .error .enforcedPause ∧
      step st (.update c t n d) = st) ∧
    (∀ c t n o, transfer st c t n o = .error .enforcedPause ∧
      step st (.transfer c t n o) = st) ∧
    (∀ st0 c st1, pause st0 c = .ok st1 →
      (∀ n, getRecord st1 n = getRecord st0 n) ∧
      (∀ n, isAvailable st1 n = isAvailable st0 n) ∧
      (∀ a, getOwnedNames st1 a = getOwnedNames st0 a) ∧
      st1.registrationFee = st0.registrationFee) ∧
    (∀ f, setRegistrationFee st st.admin f =
      .ok { st with registrationFee := f }) ∧
    (unpause st st.admin = .ok { st with paused := false }) ∧
    (∀ dest r, dest ≠ 0 → 0 < st.balance → r = true →
      withdraw st st.admin dest r =
        .ok { st with
              balance := 0,
              transfersOut := st.transfersOut ++ [(dest, st.balance)] }) ∧
    (pause st st.admin = .error .enforcedPause) := by
  refine ⟨?_, ?_, ?_, ?_, ?_, ?_, ?_, ?_⟩
  · intro c p t n d r
    have he : register st c p t n d r = .error .enforcedPause := by
      unfold register
      rw [if_pos (by simp [hp])]
    exact ⟨he, step_of_error (by simpa [applyOp] using he)⟩
  · intro c t n d
    have he : update st c t n d = .error .enforcedPause := by
      unfold update
      rw [if_pos (by simp [hp])]
    exact ⟨he, step_of_error (by simpa [applyOp] using he)⟩
  · intro c t n o
    have he : transfer st c t n o = .error .enforcedPause := by
      unfold transfer
      rw [if_pos (by simp [hp])]
    exact ⟨he, step_of_error (by simpa [applyOp] using he)⟩
  · intro st0 c st1 hok
    obtain ⟨-, -, rfl⟩ := pause_ok_elim hok
    exact ⟨fun n => rfl, fun n => rfl, fun a => rfl, rfl⟩
  · intro f
    unfold setRegistrationFee
    rw [if_neg (by simp)]
  · unfold unpause
    rw [if_neg (by simp), if_neg (by simp [hp])]
  · intro dest r h1 h2 h3
    exact withdraw_ok_intro rfl h1 h2 h3
  · unfold pause
    rw [if_neg (by simp), if_pos (by simp [hp])]

/-- Witness for C6 (amended) on a concrete paused registry with funds. -/
theorem pause_gating_witness :
    { initialRegistry 3 9 with paused := true, balance := 5 }.paused = true ∧
    register { initialRegistry 3 9 with paused := true, balance := 5 }
      1 3 0 [1] [] true = .error .enforcedPause ∧
    update { initialRegistry 3 9 with paused := true, balance := 5 }
      1 0 [1] [] = .error .enforcedPause ∧
    transfer { initialRegistry 3 9 with paused := true, balance := 5 }
      1 0 [1] 2 = .error .enforcedPause ∧
    setRegistrationFee { initialRegistry 3 9 with paused := true, balance := 5 }
      { initialRegistry 3 9 with paused := true, balance := 5 }.admin 7 =
      .ok { { initialRegistry 3 9 with paused := true, balance := 5 } with
            registrationFee := 7 } ∧
    unpause { initialRegistry 3 9 with paused := true, balance := 5 }
      { initialRegistry 3 9 with paused := true, balance := 5 }.admin =
      .ok { { initialRegistry 3 9 with paused := true, balance := 5 } with
            paused := false } := by
  have h := pause_gating
    { initialRegistry 3 9 with paused := true, balance := 5 } rfl
  exact ⟨rfl, (h.1 1 3 0 [1] [] true).1, (h.2.1 1 0 [1] []).1,
    (h.2.2.1 1 0 [1] 2).1, h.2.2.2.2.1 7, h.2.2.2.2.2.1⟩

/-- C7: a `transfer(name, newOwner)` call by a non-zero caller succeeds
exactly when the record for `name` exists with the caller as owner,
`newOwner` is not the zero sentinel, `newOwner` differs from the caller,
and the registry is not paused; on success the record's owner becomes
`newOwner` with `updatedAt = now` (data and `createdAt` kept), `name` is
appended to `ownedNames[newOwner]`, and every other account's list — in
particular the previous owner's — is unchanged. -/
theorem transfer_correct (st : Registry) (caller newOwner : Addr) (now : Nat)
    (name : Str) (hc : caller ≠ 0) :
    ((∃ st1, transfer st caller now name newOwner = .ok st1) ↔
      ((st.registry name).owner ≠ 0 ∧ (st.registry name).owner = caller ∧
        newOwner ≠ 0 ∧ newOwner ≠ caller ∧ st.paused = false)) ∧
    (∀ st1, transfer st caller now name newOwner = .ok st1 →
      st1.registry name =
        { st.registry name with owner := newOwner, updatedAt := now } ∧
      st1.ownedNames newOwner = st.ownedNames newOwner ++ [name] ∧
      (∀ a, a ≠ newOwner → st1.ownedNames a = st.ownedNames a)) := by
  constructor
  · constructor
    · rintro ⟨st1, h⟩
      obtain ⟨h1, h2, h3, h4, -⟩ := transfer_ok_elim h
      exact ⟨h2 ▸ hc, h2, h3, h4, h1⟩
    · rintro ⟨-, h2, h3, h4, h1⟩
      exact ⟨_, transfer_ok_intro h1 h2 h3 h4⟩
  · intro st1 h
    obtain ⟨-, -, -, -, rfl⟩ := transfer_ok_elim h
    refine ⟨by simp [transferEffect], by simp [transferEffect], ?_⟩
    intro a ha
    simp [transferEffect, ha]

/-- Witness for C7: owner 3 transfers `[1]` to 5. -/
theorem transfer_correct_witness :
    (3 : Addr) ≠ 0 ∧
    ((∃ st1, transfer (exec (initialRegistry 0 9) [.register 3 0 0 [1] [] true])
        3 4 [1] 5 = .ok st1) ↔
      (((exec (initialRegistry 0 9) [.register 3 0 0 [1] [] true]).registry [1]).owner ≠ 0 ∧
       ((exec (initialRegistry 0 9) [.register 3 0 0 [1] [] true]).registry [1]).owner = 3 ∧
       (5 : Addr) ≠ 0 ∧ (5 : Addr) ≠ 3 ∧
       (exec (initialRegistry 0 9) [.register 3 0 0 [1] [] true]).paused = false)) ∧
    (∀ st1, transfer (exec (initialRegistry 0 9) [.register 3 0 0 [1] [] true])
        3 4 [1] 5 = .ok st1 →
      st1.registry [1] =
        { (exec (initialRegistry 0 9) [.register 3 0 0 [1] [] true]).registry [1] with
          owner := 5, updatedAt := 4 } ∧
      st1.ownedNames 5 =
        (exec (initialRegistry 0 9) [.register 3 0 0 [1] [] true]).ownedNames 5 ++ [[1]] ∧
      (∀ a, a ≠ 5 → st1.ownedNames a =
        (exec (initialRegistry 0 9) [.register 3 0 0 [1] [] true]).ownedNames a)) := by
  have h := transfer_correct
    (exec (initialRegistry 0 9) [.register 3 0 0 [1] [] true])
    3 5 4 [1] (by decide)
  exact ⟨by decide, h.1, h.2⟩

/-- C8: `withdraw(to)` succeeds exactly when the caller is the admin, `to`
is not the zero sentinel, the balance is strictly positive, and the payout
transfer itself goes through; on success the whole balance — captured from
the pre-call state before the external transfer — is sent to `to` and the
balance becomes zero, with all records, ownership lists, fee, pause flag
and admin unchanged; on any failure (including a failing payout) the state
is unchanged. -/
theorem withdraw_correct (st : Registry) (caller dest : Addr)
    (payoutOk : Bool) :
    ((∃ st1, withdraw st caller dest payoutOk = .ok st1) ↔
      (caller = st.admin ∧ dest ≠ 0 ∧ 0 < st.balance ∧ payoutOk = true)) ∧
    (∀ st1, withdraw st caller dest payoutOk = .ok st1 →
      st1.balance = 0 ∧
      st1.transfersOut = st.transfersOut ++ [(dest, st.balance)] ∧
      st1.registry = st.registry ∧ st1.ownedNames = st.ownedNames ∧
      st1.registrationFee = st.registrationFee ∧ st1.paused = st.paused ∧
      st1.admin = st.admin) ∧
    (∀ e, withdraw st caller dest payoutOk = .error e →
      step st (.withdraw caller dest payoutOk) = st) := by
  refine ⟨⟨?_, ?_⟩, ?_, ?_⟩
  · rintro ⟨st1, h⟩
    obtain ⟨h1, h2, h3, h4, -⟩ := withdraw_ok_elim h
    exact ⟨h1, h2, h3, h4⟩
  · rintro ⟨h1, h2, h3, h4⟩
    exact ⟨_, withdraw_ok_intro h1 h2 h3 h4⟩
  · intro st1 h
    obtain ⟨-, -, -, -, rfl⟩ := withdraw_ok_elim h
    exact ⟨rfl, rfl, rfl, rfl, rfl, rfl, rfl⟩
  · intro e he
    exact step_of_error (by simpa [applyOp] using he)

/-- Witness for C8: the admin withdraws a balance of 5 to account 2. -/
theorem withdraw_correct_witness :
    ((∃ st1, withdraw { initialRegistry 3 9 with balance := 5 } 9 2 true =
        .ok st1) ↔
      ((9 : Addr) = { initialRegistry 3 9 with balance := 5 }.admin ∧
        (2 : Addr) ≠ 0 ∧
        0 < { initialRegistry 3 9 with balance := 5 }.balance ∧
        true = true)) ∧
    (∀ st1, withdraw { initialRegistry 3 9 with balance := 5 } 9 2 true =
        .ok st1 →
      st1.balance = 0 ∧
      st1.transfersOut =
        { initialRegistry 3 9 with balance := 5 }.transfersOut ++
          [(2, { initialRegistry 3 9 with balance := 5 }.balance)] ∧
      st1.registry = { initialRegistry 3 9 with balance := 5 }.registry ∧
      st1.ownedNames = { initialRegistry 3 9 with balance := 5 }.ownedNames ∧
      st1.registrationFee =
        { initialRegistry 3 9 with balance := 5 }.registrationFee ∧
      st1.paused = { initialRegistry 3 9 with balance := 5 }.paused ∧
      st1.admin = { initialRegistry 3 9 with balance := 5 }.admin) := by
  have h := withdraw_correct { initialRegistry 3 9 with balance := 5 } 9 2 true
  exact ⟨h.1, h.2.1⟩

/-- C9: balance accounting is exact — a successful registration adds
exactly the fee in force at that call (the excess payment being refunded,
not retained), a direct deposit adds its full amount, a withdrawal zeroes
the balance; over any trace from deployment with no fee change and no
withdrawal the balance equals `fee × (number of successful registrations)`
plus the sum of direct deposits; and balance and fee, as naturals, are
non-negative at all times. -/
theorem fee_conservation (st : Registry) (caller dest : Addr)
    (payment now : Nat) (name data : Str) (refundOk payoutOk : Bool)
    (amount fee : Nat) (deployer : Addr) (ops : List Op)
    (hops : noFeeChangeNoWithdraw ops = true) :
    (∀ st1, register st caller payment now name data refundOk = .ok st1 →
      st1.balance = st.balance + st.registrationFee ∧
      (st.registrationFee < payment →
        st1.transfersOut =
          st.transfersOut ++ [(caller, payment - st.registrationFee)])) ∧
    ((deposit st amount).balance = st.balance + amount) ∧
    (∀ st1, withdraw st caller dest payoutOk = .ok st1 → st1.balance = 0) ∧
    ((exec (initialRegistry fee deployer) ops).balance =
      fee * regSuccessCount (initialRegistry fee deployer) ops +
        depositSum ops) ∧
    (0 ≤ (exec (initialRegistry fee deployer) ops).balance ∧
      0 ≤ (exec (initialRegistry fee deployer) ops).registrationFee) := by
  refine ⟨?_, rfl, ?_, ?_, Nat.zero_le _, Nat.zero_le _⟩
  · intro st1 h
    obtain ⟨-, -, -, -, -, -, -, rfl⟩ := register_ok_elim h
    refine ⟨rfl, ?_⟩
    intro hlt
    simp [registerEffect, hlt]
  · intro st1 h
    obtain ⟨-, -, -, -, rfl⟩ := withdraw_ok_elim h
    rfl
  · have h := @exec_balance (initialRegistry fee deployer) ops hops
    simpa [initialRegistry] using h.2

/-- Witness for C9: two successful registrations at fee 3 and a direct
deposit of 4 leave a balance of 2 × 3 + 4. -/
theorem fee_conservation_witness :
    noFeeChangeNoWithdraw
      [.register 1 3 0 [1] [] true, .deposit 4, .register 2 5 1 [2] [] true] =
      true ∧
    regSuccessCount (initialRegistry 3 9)
      [.register 1 3 0 [1] [] true, .deposit 4, .register 2 5 1 [2] [] true] =
      2 ∧
    (exec (initialRegistry 3 9)
      [.register 1 3 0 [1] [] true, .deposit 4, .register 2 5 1 [2] [] true]).balance =
      3 * regSuccessCount (initialRegistry 3 9)
        [.register 1 3 0 [1] [] true, .deposit 4, .register 2 5 1 [2] [] true] +
      depositSum
        [.register 1 3 0 [1] [] true, .deposit 4, .register 2 5 1 [2] [] true] := by
  have h := fee_conservation (initialRegistry 3 9) 1 2 3 0 [1] [] true true
    4 3 9
    [.register 1 3 0 [1] [] true, .deposit 4, .register 2 5 1 [2] [] true]
    (by decide)
  exact ⟨by decide, by decide, h.2.2.2.1⟩

/-- C10 (frame): a successful `register`, `update` or `transfer` on a name
leaves every other name's record unchanged, every ownership list other than
the single appended one unchanged, and the fee, pause flag and admin
unchanged; `update` additionally keeps the record's owner and `createdAt`,
and `transfer` keeps the record's data and `createdAt`. -/
theorem frame_property
    (stR stU stT stR1 stU1 stT1 : Registry)
    (cR : Addr) (pR tR : Nat) (nR dR : Str) (rR : Bool)
    (cU : Addr) (tU : Nat) (nU dU : Str)
    (cT oT : Addr) (tT : Nat) (nT : Str)
    (hR : register stR cR pR tR nR dR rR = .ok stR1)
    (hU : update stU cU tU nU dU = .ok stU1)
    (hT : transfer stT cT tT nT oT = .ok stT1) :
    ((∀ n, n ≠ nR → stR1.registry n = stR.registry n) ∧
     (∀ a, a ≠ cR → stR1.ownedNames a = stR.ownedNames a) ∧
     stR1.registrationFee = stR.registrationFee ∧
     stR1.paused = stR.paused ∧ stR1.admin = stR.admin) ∧
    ((∀ n, n ≠ nU → stU1.registry n = stU.registry n) ∧
     (∀ a, a ≠ cU → stU1.ownedNames a = stU.ownedNames a) ∧
     stU1.registrationFee = stU.registrationFee ∧
     stU1.paused = stU.paused ∧ stU1.admin = stU.admin ∧
     stU1.balance = stU.balance ∧
     (stU1.registry nU).owner = (stU.registry nU).owner ∧
     (stU1.registry nU).createdAt = (stU.registry nU).createdAt) ∧
    ((∀ n, n ≠ nT → stT1.registry n = stT.registry n) ∧
     (∀ a, a ≠ oT → stT1.ownedNames a = stT.ownedNames a) ∧
     stT1.registrationFee = stT.registrationFee ∧
     stT1.paused = stT.paused ∧ stT1.admin = stT.admin ∧
     stT1.balance = stT.balance ∧
     (stT1.registry nT).data = (stT.registry nT).data ∧
     (stT1.registry nT).createdAt = (stT.registry nT).createdAt) := by
  obtain ⟨-, -, -, -, -, -, -, rfl⟩ := register_ok_elim hR
  obtain ⟨-, -, -, rfl⟩ := update_ok_elim hU
  obtain ⟨-, -, -, -, rfl⟩ := transfer_ok_elim hT
  refine ⟨⟨?_, ?_, rfl, rfl, rfl⟩,
    ⟨?_, fun a _ => rfl, rfl, rfl, rfl, rfl, ?_, ?_⟩,
    ⟨?_, ?_, rfl, rfl, rfl, rfl, ?_, ?_⟩⟩
  · intro n hn
    simp [registerEffect, hn]
  · intro a ha
    simp [registerEffect, ha]
  · intro n hn
    simp [updateEffect, hn]
  · simp [updateEffect]
  · simp [updateEffect]
  · intro n hn
    simp [transferEffect, hn]
  · intro a ha
    simp [transferEffect, ha]
  · simp [transferEffect]
  · simp [transferEffect]

/-- Witness for C10: three concrete successful calls (a registration of
`[2]`, an update of `[1]`, a transfer of `[1]`), checking representative
frame facts. -/
theorem frame_property_witness :
    register (exec (initialRegistry 0 9) [.register 3 0 0 [1] [] true])
      4 0 1 [2] [] true =
      .ok (registerEffect (exec (initialRegistry 0 9)
        [.register 3 0 0 [1] [] true]) 4 0 1 [2] []) ∧
    update (exec (initialRegistry 0 9) [.register 3 0 0 [1] [] true])
      3 1 [1] [7] =
      .ok (updateEffect (exec (initialRegistry 0 9)
        [.register 3 0 0 [1] [] true]) 1 [1] [7]) ∧
    transfer (exec (initialRegistry 0 9) [.register 3 0 0 [1] [] true])
      3 1 [1] 5 =
      .ok (transferEffect (exec (initialRegistry 0 9)
        [.register 3 0 0 [1] [] true]) 1 [1] 5) ∧
    (registerEffect (exec (initialRegistry 0 9) [.register 3 0 0 [1] [] true])
        4 0 1 [2] []).registry [1] =
      (exec (initialRegistry 0 9) [.register 3 0 0 [1] [] true]).registry [1] ∧
    ((updateEffect (exec (initialRegistry 0 9) [.register 3 0 0 [1] [] true])
        1 [1] [7]).registry [1]).owner =
      ((exec (initialRegistry 0 9) [.register 3 0 0 [1] [] true]).registry [1]).owner ∧
    ((transferEffect (exec (initialRegistry 0 9) [.register 3 0 0 [1] [] true])
        1 [1] 5).registry [1]).createdAt =
      ((exec (initialRegistry 0 9) [.register 3 0 0 [1] [] true]).registry [1]).createdAt := by
  have h := frame_property
    (exec (initialRegistry 0 9) [.register 3 0 0 [1] [] true])
    (exec (initialRegistry 0 9) [.register 3 0 0 [1] [] true])
    (exec (initialRegistry 0 9) [.register 3 0 0 [1] [] true])
    (registerEffect (exec (initialRegistry 0 9) [.register 3 0 0 [1] [] true])
      4 0 1 [2] [])
    (updateEffect (exec (initialRegistry 0 9) [.register 3 0 0 [1] [] true])
      1 [1] [7])
    (transferEffect (exec (initialRegistry 0 9) [.register 3 0 0 [1] [] true])
      1 [1] 5)
    4 0 1 [2] [] true 3 1 [1] [7] 3 5 1 [1] rfl rfl rfl
  exact ⟨rfl, rfl, rfl, h.1.1 [1] (by decide), h.2.1.2.2.2.2.2.2.1,
    h.2.2.2.2.2.2.2.2.2⟩

end BaseRegistry
